import Mathlib

/-!
Shallow embedding of `src/producer/transactionManager.js` (kafkajs):
the transactional / idempotent producer lifecycle manager.

JavaScript objects used as dictionaries are modelled as association
lists (`List (κ × α)`), with `jsGet` / `jsSet` reproducing property
read and property assignment (overwrite in place, append when absent).
Asynchronous broker round trips are modelled by passing the broker's
outcome as an explicit parameter; every public operation returns the
new aggregate, the ordered list of observable events (state
transitions and broker requests), and an optional error.
-/

section JsObjects

variable {κ : Type} {α : Type} [DecidableEq κ]

/-- Property read on a JS object: first binding of the key, `none` when absent. -/
def jsGet : List (κ × α) → κ → Option α
  | [], _ => none
  | (k', v') :: rest, k => if k' = k then some v' else jsGet rest k

/-- Property assignment on a JS object: overwrite the existing binding in
place, append a new binding when the key is absent. -/
def jsSet : List (κ × α) → κ → α → List (κ × α)
  | [], k, v => [(k, v)]
  | (k', v') :: rest, k, v => if k' = k then (k, v) :: rest else (k', v') :: jsSet rest k v

theorem jsGet_jsSet_same (m : List (κ × α)) (k : κ) (v : α) :
    jsGet (jsSet m k v) k = some v := by
  induction m with
  | nil => simp [jsGet, jsSet]
  | cons hd tl ih =>
    obtain ⟨k', v'⟩ := hd
    by_cases h : k' = k <;> simp [jsGet, jsSet, h, ih]

theorem jsGet_jsSet_other (m : List (κ × α)) (k k' : κ) (v : α) (h : k' ≠ k) :
    jsGet (jsSet m k v) k' = jsGet m k' := by
  have hne : ¬ k = k' := fun he => h he.symm
  induction m with
  | nil => simp [jsGet, jsSet, hne]
  | cons hd tl ih =>
    obtain ⟨k₀, v₀⟩ := hd
    by_cases h0 : k₀ = k
    · subst h0
      simp [jsGet, jsSet, hne]
    · simp [jsGet, jsSet, h0, ih]

theorem jsGet_mem (m : List (κ × α)) (k : κ) (v : α) (h : jsGet m k = some v) :
    (k, v) ∈ m := by
  induction m with
  | nil => simp [jsGet] at h
  | cons hd tl ih =>
    obtain ⟨k₀, v₀⟩ := hd
    by_cases h0 : k₀ = k
    · subst h0
      simp [jsGet] at h
      simp [h]
    · simp [jsGet, h0] at h
      exact List.mem_cons_of_mem _ (ih h)

theorem mem_jsSet (m : List (κ × α)) (k : κ) (v : α) (a : κ × α)
    (h : a ∈ jsSet m k v) : a ∈ m ∨ a = (k, v) := by
  induction m with
  | nil => simp [jsSet] at h; simp [h]
  | cons hd tl ih =>
    obtain ⟨k₀, v₀⟩ := hd
    by_cases h0 : k₀ = k
    · subst h0
      simp [jsSet] at h
      rcases h with h | h
      · right; simp [h]
      · left; exact List.mem_cons_of_mem _ h
    · simp [jsSet, h0] at h
      rcases h with h | h
      · left; simp [h]
      · rcases ih h with h' | h'
        · left; exact List.mem_cons_of_mem _ h'
        · right; exact h'

end JsObjects

/-- The five keys of the `STATES` object literal. -/
inductive StateName
  | UNINITIALIZED
  | READY
  | TRANSACTING
  | COMMITTING
  | ABORTING
  deriving DecidableEq, Repr

/-- The `STATES` object of the source. Note the source's line
`ABORTING: 'COMMITTING'`: the value bound to the `ABORTING` key is the
string `"COMMITTING"`, identical to the value bound to `COMMITTING`. -/
def STATES : StateName → String
  | .UNINITIALIZED => "UNINITIALIZED"
  | .READY => "READY"
  | .TRANSACTING => "TRANSACTING"
  | .COMMITTING => "COMMITTING"
  | .ABORTING => "COMMITTING"

/-- The `VALID_TRANSITIONS` object literal, built key by key with JS
computed-key semantics: since `STATES.ABORTING = STATES.COMMITTING`, the
last entry overwrites the `COMMITTING` entry. -/
def VALID_TRANSITIONS : List (String × List String) :=
  jsSet
    (jsSet
      (jsSet
        (jsSet
          (jsSet ([] : List (String × List String))
            (STATES .UNINITIALIZED) [STATES .READY])
          (STATES .READY) [STATES .READY, STATES .TRANSACTING])
        (STATES .TRANSACTING) [STATES .COMMITTING, STATES .ABORTING])
      (STATES .COMMITTING) [STATES .READY])
    (STATES .ABORTING) [STATES .READY]

/-- Sentinel for an unassigned producer id (`NO_PRODUCER_ID = -1`). -/
def NO_PRODUCER_ID : Int := -1

/-- `SEQUENCE_START = 0`. -/
def SEQUENCE_START : Nat := 0

/-- `INT_32_MAX_VALUE = Math.pow(2, 32)`. -/
def INT_32_MAX_VALUE : Nat := 2 ^ 32

/-- The mutable closure state of one transaction manager: producer
identity, per topic-partition sequence table, partitions enlisted in the
current transaction, and the lifecycle state string. -/
structure TMState where
  producerId : Int
  producerEpoch : Int
  producerSequence : List (String × List (Nat × Nat))
  transactionTopicPartitions : List (String × List Nat)
  currentState : String
  deriving DecidableEq, Repr

/-- The state of a freshly constructed manager. -/
def initialTMState : TMState :=
  { producerId := NO_PRODUCER_ID
    producerEpoch := 0
    producerSequence := []
    transactionTopicPartitions := []
    currentState := STATES .UNINITIALIZED }

/-- Construction configuration: `transactional` flag and the optional
`transactionalId`. -/
structure Config where
  transactional : Bool
  transactionalId : Option String
  deriving DecidableEq, Repr

/-- Errors raised by the manager (all `KafkaJSNonRetriableError` in the
source, distinguished here by their message). -/
inductive TMError
  | invalidStateTransition (src dst : String)
  | nonTransactional
  | brokerError
  | typeError
  deriving DecidableEq, Repr

/-- Observable events of one operation, in program order: performed state
transitions and issued broker requests. -/
inductive Event
  | transition (src dst : String)
  | reqAddPartitions (topics : List (String × List Nat))
  | reqEndTxn (committed : Bool)
  | reqInitProducerId
  deriving DecidableEq, Repr

/-- Result of one public operation: the aggregate afterwards, the events
in order, and the error, if the operation threw. -/
structure OpResult where
  state : TMState
  events : List Event
  error : Option TMError
  deriving DecidableEq, Repr

/-- `stateMachine.transitionTo(state)`: reject the target when it is not
listed under the current state in `VALID_TRANSITIONS`; otherwise emit the
transition event (whose listener clears `transactionTopicPartitions` when
the target is READY) and update `currentState`. Reading
`VALID_TRANSITIONS[currentState]` on an unknown state would be a JS
`TypeError`, modelled as `typeError`. -/
def transitionTo (s : TMState) (target : String) : Except TMError TMState :=
  match jsGet VALID_TRANSITIONS s.currentState with
  | none => .error .typeError
  | some succs =>
    if succs.contains target then
      let cleared :=
        if target = STATES .READY then
          { s with transactionTopicPartitions := ([] : List (String × List Nat)) }
        else s
      .ok { cleared with currentState := target }
    else
      .error (.invalidStateTransition s.currentState target)

/-- `transactionManager.isInitialized()`. -/
def isInitialized (s : TMState) : Bool := s.producerId ≠ NO_PRODUCER_ID

/-- `transactionManager.getSequence(topic, partition)`: 0 when
uninitialized; otherwise materialize the (topic, partition) entry with
its stored value (default `SEQUENCE_START`) and return it. -/
def getSequence (s : TMState) (topic : String) (partition : Nat) : TMState × Nat :=
  if isInitialized s = false then (s, SEQUENCE_START)
  else
    let inner := (jsGet s.producerSequence topic).getD []
    let v := (jsGet inner partition).getD SEQUENCE_START
    ({ s with producerSequence := jsSet s.producerSequence topic (jsSet inner partition v) }, v)

/-- `transactionManager.updateSequence(topic, partition, increment)`:
no-op when uninitialized; otherwise add `increment` to the previous
sequence, rotating to 0 when the sum reaches `INT_32_MAX_VALUE`. -/
def updateSequence (s : TMState) (topic : String) (partition : Nat) (increment : Nat) : TMState :=
  if isInitialized s = false then s
  else
    let r := getSequence s topic partition
    let s1 := r.1
    let previous := r.2
    let next := previous + increment
    let sequence := if INT_32_MAX_VALUE ≤ next then 0 else next
    let inner := (jsGet s1.producerSequence topic).getD []
    { s1 with producerSequence := jsSet s1.producerSequence topic (jsSet inner partition sequence) }

/-- The sequence value stored for a (topic, partition), defaulting to 0. -/
def storedSequence (s : TMState) (topic : String) (partition : Nat) : Nat :=
  (jsGet ((jsGet s.producerSequence topic).getD []) partition).getD 0

/-- Whether a (topic, partition) pair is recorded as participating in the
current transaction in an enlistment table. -/
def enlistedIn (ttp : List (String × List Nat)) (topic : String) (partition : Nat) : Bool :=
  decide (partition ∈ (jsGet ttp topic).getD [])

/-- Whether a (topic, partition) pair is enlisted in the aggregate. -/
def enlisted (s : TMState) (topic : String) (partition : Nat) : Bool :=
  enlistedIn s.transactionTopicPartitions topic partition

/-- `transactionManager.beginTransaction()`: transactional guard, then
transition to TRANSACTING. -/
def beginTransaction (cfg : Config) (s : TMState) : OpResult :=
  if cfg.transactional = false then ⟨s, [], some .nonTransactional⟩
  else
    match transitionTo s (STATES .TRANSACTING) with
    | .error e => ⟨s, [], some e⟩
    | .ok s1 => ⟨s1, [.transition s.currentState (STATES .TRANSACTING)], none⟩

/-- `transactionTopicPartitions[topic] = transactionTopicPartitions[topic] || {}`:
materialize an (empty) per-topic object when the key is absent. -/
def ensureTopic (ttp : List (String × List Nat)) (topic : String) : List (String × List Nat) :=
  match jsGet ttp topic with
  | some _ => ttp
  | none => jsSet ttp topic []

/-- The delta-collecting loop of `addPartitionsToTransaction`: for each
named topic, materialize its entry in `transactionTopicPartitions`, then
push every named partition not already enlisted onto
`newTopicPartitions[topic]`. Returns the updated enlistment table and
`newTopicPartitions` (whose entry order is JS key insertion order, hence
exactly the `topics` request payload). -/
def addPartsPhase1 (ttp ntp : List (String × List Nat)) :
    List (String × List Nat) → (List (String × List Nat)) × (List (String × List Nat))
  | [] => (ttp, ntp)
  | (topic, partitions) :: rest =>
    let ttp' := ensureTopic ttp topic
    let current := (jsGet ttp' topic).getD []
    let newParts := partitions.filter (fun p => !(decide (p ∈ current)))
    let ntp' :=
      if newParts.isEmpty then ntp
      else jsSet ntp topic (((jsGet ntp topic).getD []) ++ newParts)
    addPartsPhase1 ttp' ntp' rest

/-- `transactionTopicPartitions[topic][partition] = true`: object-key
insertion, a no-op when the partition key already exists. -/
def setInsert (l : List Nat) (p : Nat) : List Nat :=
  if p ∈ l then l else l ++ [p]

/-- The merge loop after a successful enlistment request: mark every
partition of every delta topic as participating. -/
def mergeTopics : List (String × List Nat) → List (String × List Nat) → List (String × List Nat)
  | ttp, [] => ttp
  | ttp, (topic, parts) :: rest =>
    mergeTopics (jsSet ttp topic (parts.foldl setInsert ((jsGet ttp topic).getD []))) rest

/-- `transactionManager.addPartitionsToTransaction(topicData)`:
transactional guard; compute the delta of pairs not already enlisted;
when the delta is nonempty, resolve the coordinator and issue the
`addPartitionsToTxn` request (`brokerOk` is its outcome); only then merge
the delta into the enlistment table. -/
def addPartitionsToTransaction (cfg : Config) (s : TMState)
    (topicData : List (String × List Nat)) (brokerOk : Bool) : OpResult :=
  if cfg.transactional = false then ⟨s, [], some .nonTransactional⟩
  else
    let r := addPartsPhase1 s.transactionTopicPartitions [] topicData
    let ttp1 := r.1
    let topics := r.2
    if topics.isEmpty then
      ⟨{ s with transactionTopicPartitions := mergeTopics ttp1 topics }, [], none⟩
    else if brokerOk then
      ⟨{ s with transactionTopicPartitions := mergeTopics ttp1 topics },
        [.reqAddPartitions topics], none⟩
    else
      ⟨{ s with transactionTopicPartitions := ttp1 },
        [.reqAddPartitions topics], some .brokerError⟩

/-- `transactionManager.commit()`: transactional guard; transition to
COMMITTING; resolve the coordinator and issue `endTxn` with
`transactionalResult: true` (`brokerOk` its outcome); on success
transition to READY. -/
def commit (cfg : Config) (s : TMState) (brokerOk : Bool) : OpResult :=
  if cfg.transactional = false then ⟨s, [], some .nonTransactional⟩
  else
    match transitionTo s (STATES .COMMITTING) with
    | .error e => ⟨s, [], some e⟩
    | .ok s1 =>
      if brokerOk = false then
        ⟨s1, [.transition s.currentState (STATES .COMMITTING), .reqEndTxn true],
          some .brokerError⟩
      else
        match transitionTo s1 (STATES .READY) with
        | .error e =>
          ⟨s1, [.transition s.currentState (STATES .COMMITTING), .reqEndTxn true], some e⟩
        | .ok s2 =>
          ⟨s2, [.transition s.currentState (STATES .COMMITTING), .reqEndTxn true,
                .transition s1.currentState (STATES .READY)], none⟩

/-- `transactionManager.abort()`: same shape as `commit`, through
`STATES.ABORTING` and with `transactionalResult: false`. -/
def abort (cfg : Config) (s : TMState) (brokerOk : Bool) : OpResult :=
  if cfg.transactional = false then ⟨s, [], some .nonTransactional⟩
  else
    match transitionTo s (STATES .ABORTING) with
    | .error e => ⟨s, [], some e⟩
    | .ok s1 =>
      if brokerOk = false then
        ⟨s1, [.transition s.currentState (STATES .ABORTING), .reqEndTxn false],
          some .brokerError⟩
      else
        match transitionTo s1 (STATES .READY) with
        | .error e =>
          ⟨s1, [.transition s.currentState (STATES .ABORTING), .reqEndTxn false], some e⟩
        | .ok s2 =>
          ⟨s2, [.transition s.currentState (STATES .ABORTING), .reqEndTxn false,
                .transition s1.currentState (STATES .READY)], none⟩

/-- `transactionManager.initProducerId()`: issue the `initProducerId`
request (its outcome is `brokerResult`: the assigned id and epoch, or
`none` on failure); then transition to READY and, on success, replace the
identity wholesale and reset the sequence table. The request precedes the
transition, so a rejected transition still issued the request but mutates
nothing. -/
def initProducerId (cfg : Config) (s : TMState) (brokerResult : Option (Int × Int)) : OpResult :=
  match brokerResult with
  | none => ⟨s, [.reqInitProducerId], some .brokerError⟩
  | some (pid, epoch) =>
    match transitionTo s (STATES .READY) with
    | .error e => ⟨s, [.reqInitProducerId], some e⟩
    | .ok s1 =>
      ⟨{ s1 with producerId := pid, producerEpoch := epoch, producerSequence := [] },
        [.reqInitProducerId, .transition s.currentState (STATES .READY)], none⟩

/-- A property value of the `transactionManager` object: absent
(`undef`), one of the original operation closures (`raw`), or a guard
wrapper produced by `stateMachine.guard` around an inner value, holding
the operation name used in its error message and the eligible states it
checks `currentState` against. -/
inductive MethodVal
  | undef
  | raw (name : String)
  | wrapped (method : String) (eligibleStates : List String) (inner : MethodVal)
  deriving DecidableEq, Repr

/-- `stateMachine.guard(object, method, eligibleStates)`: the source
reads `const fn = object.method` and assigns `object.method = wrapper` —
both access the property literally named `"method"`, not the property
named by the `method` argument (that argument only reaches the error
message). -/
def stateMachineGuard (obj : List (String × MethodVal)) (method : String)
    (eligibleStates : List String) : List (String × MethodVal) :=
  let fn := (jsGet obj "method").getD .undef
  jsSet obj "method" (.wrapped method eligibleStates fn)

/-- The `transactionManager` object literal: each public operation bound
to its original closure, in source order. -/
def managerBase : List (String × MethodVal) :=
  [("getProducerId", .raw "getProducerId"),
   ("getProducerEpoch", .raw "getProducerEpoch"),
   ("getTransactionalId", .raw "getTransactionalId"),
   ("initProducerId", .raw "initProducerId"),
   ("getSequence", .raw "getSequence"),
   ("updateSequence", .raw "updateSequence"),
   ("beginTransaction", .raw "beginTransaction"),
   ("addPartitionsToTransaction", .raw "addPartitionsToTransaction"),
   ("commit", .raw "commit"),
   ("abort", .raw "abort"),
   ("isInitialized", .raw "isInitialized"),
   ("isTransactional", .raw "isTransactional"),
   ("isInTransaction", .raw "isInTransaction")]

/-- The manager object after the seven `stateMachine.guard` registrations
at the bottom of the module ("Enforce the state machine"). -/
def guardedManager : List (String × MethodVal) :=
  stateMachineGuard
    (stateMachineGuard
      (stateMachineGuard
        (stateMachineGuard
          (stateMachineGuard
            (stateMachineGuard
              (stateMachineGuard managerBase
                "initProducerId" [STATES .UNINITIALIZED, STATES .READY])
              "beginTransaction" [STATES .READY])
            "getSequence" [STATES .TRANSACTING])
          "updateSequence" [STATES .TRANSACTING])
        "addPartitionsToTransaction" [STATES .TRANSACTING])
      "commit" [STATES .TRANSACTING])
    "abort" [STATES .TRANSACTING]

/-- Outcome of calling a property as a function while `currentState`
holds the given value: the call reaches one of the raw closures, is
rejected by a guard wrapper, or was not a function at all. -/
inductive CallOutcome
  | runs (rawName : String)
  | guardReject (method state : String)
  | notCallable
  deriving DecidableEq, Repr

/-- Evaluate a property value as a call: a wrapper throws unless
`currentState` is among its eligible states, otherwise it forwards to the
function it wrapped. -/
def dispatch : MethodVal → String → CallOutcome
  | .undef, _ => .notCallable
  | .raw n, _ => .runs n
  | .wrapped m states inner, st =>
    if states.contains st then dispatch inner st else .guardReject m st

/-- `transactionManager.<name>(...)` with `currentState = st`. -/
def invoke (obj : List (String × MethodVal)) (name : String) (st : String) : CallOutcome :=
  dispatch ((jsGet obj name).getD .undef) st

/-- The per-operation eligible-states table of the spec (§4.1). -/
def eligibleStatesSpec : String → Option (List StateName)
  | "initProducerId" => some [.UNINITIALIZED, .READY]
  | "beginTransaction" => some [.READY]
  | "getSequence" => some [.TRANSACTING]
  | "updateSequence" => some [.TRANSACTING]
  | "addPartitionsToTransaction" => some [.TRANSACTING]
  | "commit" => some [.TRANSACTING]
  | "abort" => some [.TRANSACTING]
  | _ => none

/-- The spec's 5-state transition graph (§4.1):
UNINITIALIZED→READY, READY→READY|TRANSACTING, TRANSACTING→COMMITTING|ABORTING,
COMMITTING→READY, ABORTING→READY. -/
def specLegalSuccessor : StateName → StateName → Bool
  | .UNINITIALIZED, .READY => true
  | .READY, .READY => true
  | .READY, .TRANSACTING => true
  | .TRANSACTING, .COMMITTING => true
  | .TRANSACTING, .ABORTING => true
  | .COMMITTING, .READY => true
  | .ABORTING, .READY => true
  | _, _ => false

/-- A transactional configuration (Scenario B of the spec). -/
def txCfg : Config := { transactional := true, transactionalId := some "tx-1" }

/-- An initialized transactional aggregate parked in READY. -/
def readyState : TMState :=
  { producerId := 1000
    producerEpoch := 0
    producerSequence := []
    transactionTopicPartitions := []
    currentState := STATES .READY }

/-- An initialized transactional aggregate inside a transaction. -/
def transactingState : TMState :=
  { readyState with currentState := STATES .TRANSACTING }

/-!  Supporting lemmas. -/

theorem enlistedIn_ensureTopic (ttp : List (String × List Nat)) (topic t : String) (p : Nat) :
    enlistedIn (ensureTopic ttp topic) t p = enlistedIn ttp t p := by
  unfold ensureTopic
  cases hget : jsGet ttp topic with
  | some l => rfl
  | none =>
    by_cases ht : t = topic
    · subst ht
      unfold enlistedIn
      rw [jsGet_jsSet_same, hget]
      rfl
    · unfold enlistedIn
      rw [jsGet_jsSet_other _ _ _ _ ht]

theorem phase1_enlisted (td : List (String × List Nat)) :
    ∀ ttp ntp t p, enlistedIn (addPartsPhase1 ttp ntp td).1 t p = enlistedIn ttp t p := by
  induction td with
  | nil => intro ttp ntp t p; rfl
  | cons hd rest ih =>
    obtain ⟨topic, partitions⟩ := hd
    intro ttp ntp t p
    simp only [addPartsPhase1]
    rw [ih, enlistedIn_ensureTopic]

theorem mem_foldl_setInsert (parts : List Nat) :
    ∀ l p, p ∈ l → p ∈ parts.foldl setInsert l := by
  induction parts with
  | nil => intro l p h; exact h
  | cons q rest ih =>
    intro l p h
    apply ih
    unfold setInsert
    split
    · exact h
    · exact List.mem_append_left _ h

theorem mergeTopics_mono (L : List (String × List Nat)) :
    ∀ ttp t p, enlistedIn ttp t p = true → enlistedIn (mergeTopics ttp L) t p = true := by
  induction L with
  | nil => intro ttp t p h; exact h
  | cons hd rest ih =>
    obtain ⟨topic, parts⟩ := hd
    intro ttp t p h
    simp only [mergeTopics]
    apply ih
    by_cases ht : t = topic
    · subst ht
      unfold enlistedIn at h ⊢
      rw [jsGet_jsSet_same]
      simp only [Option.getD_some]
      have hmem : p ∈ (jsGet ttp t).getD [] := of_decide_eq_true h
      exact decide_eq_true (mem_foldl_setInsert parts _ p hmem)
    · unfold enlistedIn at h ⊢
      rw [jsGet_jsSet_other _ _ _ _ ht]
      exact h

theorem phase1_delta_congr (td : List (String × List Nat)) :
    ∀ ttp₁ ttp₂ ntp, (∀ t p, enlistedIn ttp₁ t p = enlistedIn ttp₂ t p) →
      (addPartsPhase1 ttp₁ ntp td).2 = (addPartsPhase1 ttp₂ ntp td).2 := by
  induction td with
  | nil => intro _ _ _ _; rfl
  | cons hd rest ih =>
    obtain ⟨topic, partitions⟩ := hd
    intro ttp₁ ttp₂ ntp hpt
    have hcur : ∀ q : Nat,
        decide (q ∈ (jsGet (ensureTopic ttp₁ topic) topic).getD []) =
        decide (q ∈ (jsGet (ensureTopic ttp₂ topic) topic).getD []) := by
      intro q
      have h1 := enlistedIn_ensureTopic ttp₁ topic topic q
      have h2 := enlistedIn_ensureTopic ttp₂ topic topic q
      unfold enlistedIn at h1 h2
      rw [h1, h2]
      exact hpt topic q
    have hfilter :
        partitions.filter (fun p => !(decide (p ∈ (jsGet (ensureTopic ttp₁ topic) topic).getD []))) =
        partitions.filter (fun p => !(decide (p ∈ (jsGet (ensureTopic ttp₂ topic) topic).getD []))) := by
      apply List.filter_congr
      intro a _
      rw [hcur a]
    have hpt' : ∀ t p, enlistedIn (ensureTopic ttp₁ topic) t p =
        enlistedIn (ensureTopic ttp₂ topic) t p := by
      intro t p
      rw [enlistedIn_ensureTopic, enlistedIn_ensureTopic]
      exact hpt t p
    simp only [addPartsPhase1]
    rw [hfilter]
    exact ih _ _ _ hpt'

theorem phase1_delta_sound (td : List (String × List Nat)) :
    ∀ ttp ntp t ps p, (t, ps) ∈ (addPartsPhase1 ttp ntp td).2 → p ∈ ps →
      (∃ ps', (t, ps') ∈ ntp ∧ p ∈ ps') ∨ enlistedIn ttp t p = false := by
  induction td with
  | nil =>
    intro ttp ntp t ps p hmem hp
    exact Or.inl ⟨ps, hmem, hp⟩
  | cons hd rest ih =>
    obtain ⟨topic, partitions⟩ := hd
    intro ttp ntp t ps p hmem hp
    simp only [addPartsPhase1] at hmem
    rcases ih _ _ _ _ _ hmem hp with ⟨ps', hps', hp'⟩ | hfalse
    · -- the pair came from the accumulator as updated for this topic
      by_cases hempty :
          (partitions.filter
            (fun q => !(decide (q ∈ (jsGet (ensureTopic ttp topic) topic).getD [])))).isEmpty
      · simp only [hempty, if_true] at hps'
        exact Or.inl ⟨ps', hps', hp'⟩
      · simp only [hempty, if_false] at hps'
        rcases mem_jsSet _ _ _ _ hps' with hold | hnew
        · exact Or.inl ⟨ps', hold, hp'⟩
        · -- the entry is the freshly assigned (topic, old ++ newParts)
          obtain ⟨ht, hps''⟩ := Prod.mk.injEq .. ▸ hnew
          subst ht
          rw [hps''] at hp'
          rcases List.mem_append.mp hp' with hpold | hpnew
          · cases hget : jsGet ntp t with
            | none => rw [hget] at hpold; simp at hpold
            | some old =>
              rw [hget] at hpold
              simp only [Option.getD_some] at hpold
              exact Or.inl ⟨old, jsGet_mem _ _ _ hget, hpold⟩
          · have := List.of_mem_filter hpnew
            have hnotin : ¬ p ∈ (jsGet (ensureTopic ttp t) t).getD [] := by
              simpa using this
            right
            have : enlistedIn (ensureTopic ttp t) t p = false := by
              unfold enlistedIn
              exact decide_eq_false hnotin
            rw [← enlistedIn_ensureTopic ttp t t p]
            exact this
    · right
      rw [← enlistedIn_ensureTopic ttp topic t p]
      exact hfalse

theorem phase1_delta_empty (td : List (String × List Nat)) :
    ∀ ttp ntp, (∀ t ps, (t, ps) ∈ td → ∀ p, p ∈ ps → enlistedIn ttp t p = true) →
      (addPartsPhase1 ttp ntp td).2 = ntp := by
  induction td with
  | nil => intro _ _ _; rfl
  | cons hd rest ih =>
    obtain ⟨topic, partitions⟩ := hd
    intro ttp ntp hall
    have hfilter :
        partitions.filter
          (fun q => !(decide (q ∈ (jsGet (ensureTopic ttp topic) topic).getD []))) = [] := by
      apply List.filter_eq_nil_iff.mpr
      intro a ha
      have htrue : enlistedIn ttp topic a = true :=
        hall topic partitions (List.mem_cons_self _ _) a ha
      have : enlistedIn (ensureTopic ttp topic) topic a = true := by
        rw [enlistedIn_ensureTopic]; exact htrue
      unfold enlistedIn at this
      simp [of_decide_eq_true this]
    have hall' : ∀ t ps, (t, ps) ∈ rest → ∀ p, p ∈ ps →
        enlistedIn (ensureTopic ttp topic) t p = true := by
      intro t ps hmem p hp
      rw [enlistedIn_ensureTopic]
      exact hall t ps (List.mem_cons_of_mem _ hmem) p hp
    simp only [addPartsPhase1, hfilter, List.isEmpty_nil, if_true]
    exact ih _ _ hall'

theorem transitionTo_characterization (s : TMState) (cur tgt : StateName)
    (h : s.currentState = STATES cur) :
    transitionTo s (STATES tgt) =
      if specLegalSuccessor cur tgt then
        .ok { s with
              transactionTopicPartitions :=
                if STATES tgt = STATES .READY then [] else s.transactionTopicPartitions,
              currentState := STATES tgt }
      else .error (.invalidStateTransition (STATES cur) (STATES tgt)) := by
  cases cur <;> cases tgt <;>
    simp [transitionTo, h, STATES, VALID_TRANSITIONS, jsGet, jsSet, specLegalSuccessor]

theorem addParts_events_characterization (s : TMState) (td : List (String × List Nat)) (b : Bool) :
    (addPartitionsToTransaction txCfg s td b).events =
      (if ((addPartsPhase1 s.transactionTopicPartitions [] td).2).isEmpty then ([] : List Event)
       else [.reqAddPartitions (addPartsPhase1 s.transactionTopicPartitions [] td).2]) := by
  simp only [addPartitionsToTransaction, txCfg]
  split
  · simp_all
  · split
    · simp_all
    · split <;> simp_all

/-!  Claim theorems. -/

/-- C1: the claim states that every public operation invoked in a state
outside its eligible set fails with InvalidStateTransition without
mutating stored data. The code violates this: `stateMachine.guard` reads
and reassigns the property literally named `method` (`object.method`
instead of `object[method]`), so no wrapper is ever attached to the
operations themselves. Evaluated here at the spec's Scenario D input:
`getSequence` invoked in READY dispatches to the unguarded closure and
returns 0 instead of throwing, and `addPartitionsToTransaction` invoked
in READY runs, issues its broker request and records the partition. -/
theorem guard_wiring_bug_evaluation :
    invoke guardedManager "getSequence" (STATES .READY) = CallOutcome.runs "getSequence" ∧
    jsGet guardedManager "getSequence" = some (.raw "getSequence") ∧
    StateName.READY ∉ (eligibleStatesSpec "getSequence").getD [] ∧
    (getSequence readyState "t" 0).2 = 0 ∧
    invoke guardedManager "addPartitionsToTransaction" (STATES .READY) =
      CallOutcome.runs "addPartitionsToTransaction" ∧
    (addPartitionsToTransaction txCfg readyState [("t", [0])] true).error = none ∧
    (addPartitionsToTransaction txCfg readyState [("t", [0])] true).events =
      [.reqAddPartitions [("t", [0])]] ∧
    enlisted (addPartitionsToTransaction txCfg readyState [("t", [0])] true).state "t" 0 = true := by
  decide

/-- C2: the claim states COMMITTING and ABORTING are distinct states. In
the code `STATES.ABORTING` is bound to the string `'COMMITTING'`, so the
two coincide, and entering COMMITTING via `commit` and ABORTING via
`abort` (here parked by a failing end-transaction call, from
TRANSACTING) yields the same stored state value. -/
theorem states_aborting_collapsed_evaluation :
    STATES .ABORTING = STATES .COMMITTING ∧
    (commit txCfg transactingState false).state.currentState =
      (abort txCfg transactingState false).state.currentState ∧
    (commit txCfg transactingState false).state =
      (abort txCfg transactingState false).state := by
  decide

/-- C6: on an initialized aggregate, `updateSequence` stores
`previous + increment` when the sum is strictly below 2^32 and stores
exactly 0 when the sum reaches or exceeds 2^32. -/
theorem updateSequence_wraparound (s : TMState) (t : String) (p : Nat) (inc : Nat)
    (h : isInitialized s = true) :
    storedSequence (updateSequence s t p inc) t p =
      if storedSequence s t p + inc < INT_32_MAX_VALUE then storedSequence s t p + inc else 0 := by
  simp only [updateSequence, getSequence, h, Bool.true_eq_false, if_neg, ite_false,
    storedSequence, SEQUENCE_START]
  rw [jsGet_jsSet_same, Option.getD_some, jsGet_jsSet_same, Option.getD_some]
  simp only [INT_32_MAX_VALUE]
  split_ifs <;> omega

/-- C6 witness: Scenario C — previous sequence 4294967294 for ("t", 0),
increment 2, stored value wraps to exactly 0. -/
theorem updateSequence_wraparound_witness :
    storedSequence
      (updateSequence
        { transactingState with producerSequence := [("t", [(0, 4294967294)])] } "t" 0 2) "t" 0
      = 0 := by
  rw [updateSequence_wraparound
    { transactingState with producerSequence := [("t", [(0, 4294967294)])] } "t" 0 2 rfl]
  decide

/-- C7: before the producer identity is initialized (producerId = -1),
`getSequence` returns 0 and leaves the aggregate untouched, and
`updateSequence` is a no-op, so `getSequence` still returns 0 after any
`updateSequence` attempt. -/
theorem preInit_sequence_inert (s : TMState) (t t' : String) (p p' : Nat) (i : Nat)
    (h : s.producerId = NO_PRODUCER_ID) :
    getSequence s t p = (s, 0) ∧
    updateSequence s t' p' i = s ∧
    (getSequence (updateSequence s t' p' i) t p).2 = 0 := by
  have hinit : isInitialized s = false := by
    simp [isInitialized, h]
  refine ⟨?_, ?_, ?_⟩ <;> simp [getSequence, updateSequence, hinit, SEQUENCE_START]

/-- C7 witness: the fresh aggregate at the concrete inputs of the claim. -/
theorem preInit_sequence_inert_witness :
    getSequence initialTMState "t" 0 = (initialTMState, 0) ∧
    updateSequence initialTMState "t" 0 5 = initialTMState ∧
    (getSequence (updateSequence initialTMState "t" 0 5) "t" 0).2 = 0 :=
  preInit_sequence_inert initialTMState "t" "t" 0 0 5 rfl

theorem addParts_eval (s : TMState) (td : List (String × List Nat)) (b : Bool) :
    addPartitionsToTransaction txCfg s td b =
      (if ((addPartsPhase1 s.transactionTopicPartitions [] td).2).isEmpty then
        ⟨{ s with transactionTopicPartitions :=
             (addPartsPhase1 s.transactionTopicPartitions [] td).1 }, [], none⟩
       else if b then
        ⟨{ s with transactionTopicPartitions :=
             (mergeTopics (addPartsPhase1 s.transactionTopicPartitions [] td).1
               (addPartsPhase1 s.transactionTopicPartitions [] td).2) },
          [.reqAddPartitions (addPartsPhase1 s.transactionTopicPartitions [] td).2], none⟩
       else
        ⟨{ s with transactionTopicPartitions :=
             (addPartsPhase1 s.transactionTopicPartitions [] td).1 },
          [.reqAddPartitions (addPartsPhase1 s.transactionTopicPartitions [] td).2],
          some .brokerError⟩) := by
  simp only [addPartitionsToTransaction, txCfg]
  by_cases hemp : ((addPartsPhase1 s.transactionTopicPartitions [] td).2).isEmpty
  · have hnil : (addPartsPhase1 s.transactionTopicPartitions [] td).2 = [] :=
      List.isEmpty_iff.mp hemp
    simp [hemp, hnil, mergeTopics]
  · cases b <;> simp [hemp]

theorem commit_from_transacting (s : TMState) (b : Bool)
    (h : s.currentState = STATES .TRANSACTING) :
    commit txCfg s b =
      if b then
        ⟨{ s with transactionTopicPartitions := [], currentState := STATES .READY },
          [.transition (STATES .TRANSACTING) (STATES .COMMITTING), .reqEndTxn true,
           .transition (STATES .COMMITTING) (STATES .READY)], none⟩
      else
        ⟨{ s with currentState := STATES .COMMITTING },
          [.transition (STATES .TRANSACTING) (STATES .COMMITTING), .reqEndTxn true],
          some .brokerError⟩ := by
  cases b <;>
    simp [commit, transitionTo, txCfg, h, VALID_TRANSITIONS, jsGet, jsSet, STATES,
      List.contains, List.elem]

theorem abort_from_transacting (s : TMState) (b : Bool)
    (h : s.currentState = STATES .TRANSACTING) :
    abort txCfg s b =
      if b then
        ⟨{ s with transactionTopicPartitions := [], currentState := STATES .READY },
          [.transition (STATES .TRANSACTING) (STATES .ABORTING), .reqEndTxn false,
           .transition (STATES .ABORTING) (STATES .READY)], none⟩
      else
        ⟨{ s with currentState := STATES .ABORTING },
          [.transition (STATES .TRANSACTING) (STATES .ABORTING), .reqEndTxn false],
          some .brokerError⟩ := by
  cases b <;>
    simp [abort, transitionTo, txCfg, h, VALID_TRANSITIONS, jsGet, jsSet, STATES,
      List.contains, List.elem]

/-- A transactional aggregate mid-transaction with ("t", 0) enlisted. -/
def enlState : TMState :=
  { transactingState with transactionTopicPartitions := [("t", [0])] }

/-- The aggregate `enlState` parked in COMMITTING (e.g. by a failing
commit), still holding its enlisted partition. -/
def committingEnlState : TMState :=
  { enlState with currentState := STATES .COMMITTING }

/-- The aggregate `enlState` after a transition into READY. -/
def clearedEnlState : TMState :=
  { enlState with transactionTopicPartitions := [], currentState := STATES .READY }

/-- C3: on a failing enlistment request, no (topic, partition) pair of the
computed delta is merged into the enlistment table — every pair's
enlistment status is exactly as before the call — and a retry recomputes
the same delta, issuing the same request events. -/
theorem no_optimistic_enlistment (s : TMState) (td : List (String × List Nat)) :
    (∀ t p, enlisted (addPartitionsToTransaction txCfg s td false).state t p = enlisted s t p) ∧
    (addPartitionsToTransaction txCfg
        (addPartitionsToTransaction txCfg s td false).state td false).events =
      (addPartitionsToTransaction txCfg s td false).events := by
  have hstate : ∀ t p,
      enlisted (addPartitionsToTransaction txCfg s td false).state t p = enlisted s t p := by
    intro t p
    rw [addParts_eval]
    by_cases hemp : ((addPartsPhase1 s.transactionTopicPartitions [] td).2).isEmpty
    · simp only [hemp, if_true]
      exact phase1_enlisted td _ _ t p
    · simp only [hemp, Bool.false_eq_true, if_false]
      exact phase1_enlisted td _ _ t p
  refine ⟨hstate, ?_⟩
  rw [addParts_events_characterization, addParts_events_characterization]
  have hdelta :
      (addPartsPhase1
        (addPartitionsToTransaction txCfg s td false).state.transactionTopicPartitions [] td).2 =
      (addPartsPhase1 s.transactionTopicPartitions [] td).2 :=
    phase1_delta_congr td _ _ _ (fun t p => hstate t p)
  rw [hdelta]

/-- C4: every enlistment request carries only pairs that were not already
enlisted, and a call naming only already-enlisted pairs issues no request
at all, succeeds, and leaves the enlistment status of every pair
unchanged. -/
theorem addPartitions_delta_discipline (s : TMState) (td : List (String × List Nat)) (b : Bool) :
    (∀ tps, Event.reqAddPartitions tps ∈ (addPartitionsToTransaction txCfg s td b).events →
       ∀ t ps, (t, ps) ∈ tps → ∀ p, p ∈ ps → enlisted s t p = false) ∧
    ((∀ t ps, (t, ps) ∈ td → ∀ p, p ∈ ps → enlisted s t p = true) →
       (addPartitionsToTransaction txCfg s td b).events = [] ∧
       (addPartitionsToTransaction txCfg s td b).error = none ∧
       ∀ t p, enlisted (addPartitionsToTransaction txCfg s td b).state t p = enlisted s t p) := by
  constructor
  · intro tps hmem t ps hps p hp
    rw [addParts_events_characterization] at hmem
    by_cases hemp : ((addPartsPhase1 s.transactionTopicPartitions [] td).2).isEmpty
    · simp [hemp] at hmem
    · simp [hemp] at hmem
      subst hmem
      rcases phase1_delta_sound td s.transactionTopicPartitions [] t ps p hps hp with
        ⟨ps', h', _⟩ | hf
      · simp at h'
      · exact hf
  · intro hall
    have hnil : (addPartsPhase1 s.transactionTopicPartitions [] td).2 = [] :=
      phase1_delta_empty td _ _ (fun t ps hm p hp => hall t ps hm p hp)
    have hemp : ((addPartsPhase1 s.transactionTopicPartitions [] td).2).isEmpty = true := by
      rw [hnil]; rfl
    rw [addParts_eval, if_pos hemp]
    refine ⟨rfl, rfl, ?_⟩
    intro t p
    exact phase1_enlisted td _ _ t p

/-- C4 witness: with ("t", 0) already enlisted, repeating
addPartitionsToTransaction for ("t", 0) issues zero events, succeeds, and
leaves the enlistment status unchanged; and a call that does issue a
request (for ("u", 1)) carries only pairs that were not enlisted. -/
theorem addPartitions_delta_discipline_witness :
    (addPartitionsToTransaction txCfg enlState [("t", [0])] true).events = [] ∧
    (addPartitionsToTransaction txCfg enlState [("t", [0])] true).error = none ∧
    enlisted (addPartitionsToTransaction txCfg enlState [("t", [0])] true).state "t" 0 =
      enlisted enlState "t" 0 ∧
    enlisted enlState "u" 1 = false := by
  have h := (addPartitions_delta_discipline enlState [("t", [0])] true).2 (by
    intro t ps hm p hp
    simp at hm
    obtain ⟨ht, hps⟩ := hm
    subst ht
    subst hps
    simp at hp
    subst hp
    decide)
  have h2 := (addPartitions_delta_discipline enlState [("u", [1])] true).1
    [("u", [1])] (by decide) "u" [1] (by simp) 1 (by simp)
  exact ⟨h.1, h.2.1, h.2.2 "t" 0, h2⟩

/-- C5: every successful transition into READY leaves the enlistment
table empty; a successful transition to any other target leaves it
untouched; getSequence and updateSequence never touch it; and
addPartitionsToTransaction never removes an enlisted pair. -/
theorem enlistment_cleared_exactly_on_ready (s s₁ s₂ : TMState) (tgt : String)
    (t : String) (p : Nat) (i : Nat) (td : List (String × List Nat)) (b : Bool) :
    (transitionTo s (STATES .READY) = .ok s₁ → s₁.transactionTopicPartitions = []) ∧
    (transitionTo s tgt = .ok s₂ → tgt ≠ STATES .READY →
      s₂.transactionTopicPartitions = s.transactionTopicPartitions) ∧
    (getSequence s t p).1.transactionTopicPartitions = s.transactionTopicPartitions ∧
    (updateSequence s t p i).transactionTopicPartitions = s.transactionTopicPartitions ∧
    (enlisted s t p = true →
      enlisted (addPartitionsToTransaction txCfg s td b).state t p = true) := by
  refine ⟨?_, ?_, ?_, ?_, ?_⟩
  · intro hok
    unfold transitionTo at hok
    cases hj : jsGet VALID_TRANSITIONS s.currentState with
    | none =>
      simp only [hj] at hok
      exact absurd hok (by simp)
    | some succs =>
      simp only [hj] at hok
      split at hok
      · simp only [if_true] at hok
        injection hok with h
        rw [← h]
      · exact absurd hok (by simp)
  · intro hok hne
    unfold transitionTo at hok
    cases hj : jsGet VALID_TRANSITIONS s.currentState with
    | none =>
      simp only [hj] at hok
      exact absurd hok (by simp)
    | some succs =>
      simp only [hj] at hok
      split at hok
      · injection hok with h
        rw [← h]
      · exact absurd hok (by simp)
  · unfold getSequence
    split <;> rfl
  · unfold updateSequence
    split
    · rfl
    · show (getSequence s t p).1.transactionTopicPartitions = s.transactionTopicPartitions
      unfold getSequence
      split <;> rfl
  · intro hen
    rw [addParts_eval]
    by_cases hemp : ((addPartsPhase1 s.transactionTopicPartitions [] td).2).isEmpty
    · simp only [hemp, if_true]
      show enlistedIn (addPartsPhase1 s.transactionTopicPartitions [] td).1 t p = true
      rw [phase1_enlisted]
      exact hen
    · cases b
      · simp only [hemp, Bool.false_eq_true, if_false]
        show enlistedIn (addPartsPhase1 s.transactionTopicPartitions [] td).1 t p = true
        rw [phase1_enlisted]
        exact hen
      · simp only [hemp, Bool.false_eq_true, if_false, if_true]
        show enlistedIn
          (mergeTopics (addPartsPhase1 s.transactionTopicPartitions [] td).1
            (addPartsPhase1 s.transactionTopicPartitions [] td).2) t p = true
        apply mergeTopics_mono
        rw [phase1_enlisted]
        exact hen

/-- C5 witness: clearing on the concrete READY transition from the
enlisted aggregate, and preservation of the enlisted pair by a further
addPartitionsToTransaction call. -/
theorem enlistment_cleared_exactly_on_ready_witness :
    clearedEnlState.transactionTopicPartitions = [] ∧
    enlisted (addPartitionsToTransaction txCfg committingEnlState [("u", [1])] true).state "t" 0 =
      true := by
  have h := enlistment_cleared_exactly_on_ready committingEnlState clearedEnlState
    committingEnlState (STATES .TRANSACTING) "t" 0 1 [("u", [1])] true
  exact ⟨h.1 (by rfl), h.2.2.2.2 (by decide)⟩

/-- C8: from TRANSACTING, commit first transitions to COMMITTING and only
then issues endTxn with committed = true; it transitions to READY exactly
when the request succeeds, and stays parked in COMMITTING when it fails.
abort is symmetric through STATES.ABORTING with committed = false. -/
theorem commit_abort_protocol (s : TMState) (b : Bool)
    (h : s.currentState = STATES .TRANSACTING) :
    ((commit txCfg s b).events =
      .transition (STATES .TRANSACTING) (STATES .COMMITTING) :: .reqEndTxn true ::
        (if b then [.transition (STATES .COMMITTING) (STATES .READY)] else [])) ∧
    (b = true → (commit txCfg s b).state.currentState = STATES .READY ∧
      (commit txCfg s b).error = none ∧
      (commit txCfg s b).state.transactionTopicPartitions = []) ∧
    (b = false → (commit txCfg s b).state.currentState = STATES .COMMITTING ∧
      (commit txCfg s b).error = some .brokerError) ∧
    ((abort txCfg s b).events =
      .transition (STATES .TRANSACTING) (STATES .ABORTING) :: .reqEndTxn false ::
        (if b then [.transition (STATES .ABORTING) (STATES .READY)] else [])) ∧
    (b = true → (abort txCfg s b).state.currentState = STATES .READY ∧
      (abort txCfg s b).error = none) ∧
    (b = false → (abort txCfg s b).state.currentState = STATES .ABORTING ∧
      (abort txCfg s b).error = some .brokerError) := by
  rw [commit_from_transacting s b h, abort_from_transacting s b h]
  cases b <;> simp [STATES]

/-- C8 witness: the concrete transacting aggregate with a failing broker
call is parked, and with a succeeding one returns to READY. -/
theorem commit_abort_protocol_witness :
    (commit txCfg transactingState false).events =
      [.transition (STATES .TRANSACTING) (STATES .COMMITTING), .reqEndTxn true] ∧
    (commit txCfg transactingState false).state.currentState = STATES .COMMITTING ∧
    (abort txCfg transactingState false).state.currentState = STATES .ABORTING ∧
    (commit txCfg transactingState true).state.currentState = STATES .READY := by
  have h1 := commit_abort_protocol transactingState false rfl
  have h2 := commit_abort_protocol transactingState true rfl
  exact ⟨by simpa using h1.1, (h1.2.2.1 rfl).1, (h1.2.2.2.2.2 rfl).1, (h2.2.1 rfl).1⟩

/-- C9: transitionTo rejects exactly the targets that are not legal
successors of the current state under the spec's transition graph
(UNINITIALIZED→READY, READY→READY|TRANSACTING,
TRANSACTING→COMMITTING|ABORTING, COMMITTING→READY, ABORTING→READY),
raising InvalidStateTransition and producing no new state; a legal target
updates the current state to the target and applies the clear-on-READY
side effect before returning. -/
theorem transitionTo_follows_graph (cur tgt : StateName) (s : TMState)
    (h : s.currentState = STATES cur) :
    (specLegalSuccessor cur tgt = false →
      transitionTo s (STATES tgt) =
        .error (.invalidStateTransition (STATES cur) (STATES tgt))) ∧
    (specLegalSuccessor cur tgt = true →
      transitionTo s (STATES tgt) =
        .ok { s with
              transactionTopicPartitions :=
                if STATES tgt = STATES .READY then [] else s.transactionTopicPartitions,
              currentState := STATES tgt }) := by
  have hc := transitionTo_characterization s cur tgt h
  constructor <;> intro hleg <;> rw [hc, hleg] <;> simp

/-- C9 witness: from READY, TRANSACTING is accepted and COMMITTING is
rejected, at the concrete initialized aggregate. -/
theorem transitionTo_follows_graph_witness :
    specLegalSuccessor .READY .TRANSACTING = true ∧
    transitionTo readyState (STATES .TRANSACTING) =
      .ok { readyState with currentState := STATES .TRANSACTING } ∧
    specLegalSuccessor .READY .COMMITTING = false ∧
    transitionTo readyState (STATES .COMMITTING) =
      .error (.invalidStateTransition (STATES .READY) (STATES .COMMITTING)) := by
  have h1 := (transitionTo_follows_graph .READY .TRANSACTING readyState rfl).2 rfl
  have h2 := (transitionTo_follows_graph .READY .COMMITTING readyState rfl).1 rfl
  refine ⟨rfl, ?_, rfl, h2⟩
  simpa [STATES] using h1

/-- C10: on a transactional aggregate, beginTransaction outside READY and
commit/abort outside TRANSACTING throw InvalidStateTransition straight
from the transition table, with no broker request issued and the
aggregate returned unchanged. -/
theorem lifecycle_ops_rejected_without_request (cur : StateName) (s : TMState) (b : Bool)
    (h : s.currentState = STATES cur) :
    (cur ≠ .READY → beginTransaction txCfg s =
      ⟨s, [], some (.invalidStateTransition (STATES cur) (STATES .TRANSACTING))⟩) ∧
    (cur ≠ .TRANSACTING → commit txCfg s b =
      ⟨s, [], some (.invalidStateTransition (STATES cur) (STATES .COMMITTING))⟩) ∧
    (cur ≠ .TRANSACTING → abort txCfg s b =
      ⟨s, [], some (.invalidStateTransition (STATES cur) (STATES .ABORTING))⟩) := by
  refine ⟨?_, ?_, ?_⟩
  · intro hne
    have hleg : specLegalSuccessor cur .TRANSACTING = false := by
      cases cur <;> simp_all [specLegalSuccessor]
    have hc := transitionTo_characterization s cur .TRANSACTING h
    rw [hleg] at hc
    simp only [Bool.false_eq_true, if_false] at hc
    simp [beginTransaction, txCfg, hc]
  · intro hne
    have hleg : specLegalSuccessor cur .COMMITTING = false := by
      cases cur <;> simp_all [specLegalSuccessor]
    have hc := transitionTo_characterization s cur .COMMITTING h
    rw [hleg] at hc
    simp only [Bool.false_eq_true, if_false] at hc
    simp [commit, txCfg, hc]
  · intro hne
    have hleg : specLegalSuccessor cur .ABORTING = false := by
      cases cur <;> simp_all [specLegalSuccessor]
    have hc := transitionTo_characterization s cur .ABORTING h
    rw [hleg] at hc
    simp only [Bool.false_eq_true, if_false] at hc
    simp [abort, txCfg, hc]

/-- C10 witness: commit invoked in READY and beginTransaction invoked in
TRANSACTING are rejected by the transition table, unchanged and without
events, at the concrete aggregates. -/
theorem lifecycle_ops_rejected_witness :
    commit txCfg readyState true =
      ⟨readyState, [], some (.invalidStateTransition (STATES .READY) (STATES .COMMITTING))⟩ ∧
    beginTransaction txCfg transactingState =
      ⟨transactingState, [],
        some (.invalidStateTransition (STATES .TRANSACTING) (STATES .TRANSACTING))⟩ := by
  have h1 := (lifecycle_ops_rejected_without_request .READY readyState true rfl).2.1 (by decide)
  have h2 :=
    (lifecycle_ops_rejected_without_request .TRANSACTING transactingState true rfl).1 (by decide)
  exact ⟨h1, h2⟩
